import Mathlib

/-!
Shallow embedding of the EduChain proof-of-work blockchain simulator
(`app.py`): `Transaction`, `Block` and `Blockchain` classes and their
operations. The SHA-256 digest is abstracted as a function
`H : String → String` applied to the same serialized strings the source
builds; timestamps and elapsed times (`time.time()` readings) are passed
in explicitly; the unbounded proof-of-work loop takes fuel and returns
`none` when the fuel is exhausted (the source loops until success).
Python's in-place mutation is rendered as explicit state passing on
immutable values.
-/

namespace EduChain

/-- Mirror of class `Transaction`: sender, receiver, amount, timestamp and
the content-derived (or caller-supplied) id. Amounts and timestamps are
modelled as rationals (Python numerics). -/
structure Transaction where
  sender : String
  receiver : String
  amount : ℚ
  timestamp : ℚ
  id : String
  deriving DecidableEq, Inhabited

/-- The string `f"{self.sender}{self.receiver}{self.amount}{self.timestamp}"`
hashed by `Transaction.calculate_hash`. -/
def txHashString (sender receiver : String) (amount timestamp : ℚ) : String :=
  sender ++ receiver ++ toString amount ++ toString timestamp

/-- Model of `Transaction.calculate_hash`: digest of the four canonical fields
(the stored id is not an input). -/
def Transaction.calculate_hash (H : String → String) (t : Transaction) : String :=
  H (txHashString t.sender t.receiver t.amount t.timestamp)

/-- Model of `Transaction.__init__`. Python truthiness is preserved: a timestamp of
`0` (falsy) falls back to the current time `now`, and an empty-string
`tx_id` (falsy) falls back to the computed digest. -/
def Transaction.make (H : String → String) (sender receiver : String) (amount : ℚ)
    (timestamp : Option ℚ) (now : ℚ) (tx_id : Option String) : Transaction :=
  let ts : ℚ :=
    match timestamp with
    | some t => if t = 0 then now else t
    | none => now
  let base : Transaction :=
    { sender := sender, receiver := receiver, amount := amount, timestamp := ts, id := "" }
  let digest := base.calculate_hash H
  { base with
    id :=
      match tx_id with
      | some s => if s = "" then digest else s
      | none => digest }

/-- JSON rendering of `Transaction.to_dict()` as serialized by
`json.dumps(..., sort_keys=True)`: keys in sorted order
(amount, id, receiver, sender, timestamp) with `", "` and `": "`
separators. -/
def txDictJson (t : Transaction) : String :=
  "\x7b\"amount\": " ++ toString t.amount ++
  ", \"id\": \"" ++ t.id ++
  "\", \"receiver\": \"" ++ t.receiver ++
  "\", \"sender\": \"" ++ t.sender ++
  "\", \"timestamp\": " ++ toString t.timestamp ++ "\x7d"

/-- Model of `json.dumps([tx.to_dict() for tx in transactions], sort_keys=True)`. -/
def txListJson (txs : List Transaction) : String :=
  "[" ++ String.intercalate ", " (txs.map txDictJson) ++ "]"

/-- Mirror of class `Block`. The stored `hash` and `mining_time` are data
fields; they are not inputs of the block digest. -/
structure Block where
  index : Nat
  timestamp : ℚ
  transactions : List Transaction
  previous_hash : String
  difficulty : Nat
  nonce : Nat
  hash : String
  mining_time : ℚ
  deriving DecidableEq, Inhabited

/-- The string `f"{index}{timestamp}{tx_string}{previous_hash}{difficulty}{nonce}"`
hashed by `Block.calculate_hash`. -/
def blockString (index : Nat) (timestamp : ℚ) (txs : List Transaction)
    (previous_hash : String) (difficulty : Nat) (nonce : Nat) : String :=
  toString index ++ toString timestamp ++ txListJson txs ++
  previous_hash ++ toString difficulty ++ toString nonce

/-- Model of `Block.calculate_hash`: digest of the stored index, timestamp,
transactions, previous_hash, difficulty and nonce. -/
def Block.calculate_hash (H : String → String) (b : Block) : String :=
  H (blockString b.index b.timestamp b.transactions b.previous_hash b.difficulty b.nonce)

/-- Model of `Block.__init__`: nonce starts at 0, provisional hash computed at once,
mining_time 0; the creation time `now` is passed explicitly. -/
def Block.new (H : String → String) (index : Nat) (previous_hash : String)
    (transactions : List Transaction) (difficulty : Nat) (now : ℚ) : Block :=
  { index := index, timestamp := now, transactions := transactions,
    previous_hash := previous_hash, difficulty := difficulty, nonce := 0,
    hash := H (blockString index now transactions previous_hash difficulty 0),
    mining_time := 0 }

/-- The proof-of-work target `"0" * difficulty`. -/
def hashTarget (difficulty : Nat) : String :=
  String.mk (List.replicate difficulty '0')

/-- The `while self.hash[:self.difficulty] != target` search loop of
`Block.mine_block`, with explicit fuel bounding the number of nonce
increments; `none` means the loop has not yet terminated within the fuel. -/
def mineLoop (H : String → String) (fuel : Nat) (b : Block) : Option Block :=
  match fuel with
  | 0 =>
    if b.hash.take b.difficulty = hashTarget b.difficulty then some b else none
  | Nat.succ fuel' =>
    if b.hash.take b.difficulty = hashTarget b.difficulty then some b
    else
      mineLoop H fuel'
        { b with nonce := b.nonce + 1,
                 hash := Block.calculate_hash H { b with nonce := b.nonce + 1 } }

/-- Model of `Block.mine_block`: run the search loop, then record the elapsed time
(`end_time - start_time`, passed in as `elapsed`). -/
def Block.mine_block (H : String → String) (fuel : Nat) (elapsed : ℚ) (b : Block) :
    Option Block :=
  (mineLoop H fuel b).map fun m => { m with mining_time := elapsed }

/-- Mirror of class `Blockchain`: the chain, the pending pool, the current
difficulty, the processed-id set and the mining-time history. -/
structure Blockchain where
  chain : List Block
  pending_transactions : List Transaction
  difficulty : Nat
  processed_tx_ids : Finset String
  mining_times : List ℚ
  deriving DecidableEq, Inhabited

/-- Model of `Blockchain.create_genesis_block`: `Block(0, "0", [], 1)`. -/
def create_genesis_block (H : String → String) (now : ℚ) : Block :=
  Block.new H 0 "0" [] 1 now

/-- Model of `Blockchain.__init__`: genesis chain, empty pool, starting difficulty 2,
empty processed-id set, empty mining-time history. -/
def Blockchain.init (H : String → String) (now : ℚ) : Blockchain :=
  { chain := [create_genesis_block H now], pending_transactions := [],
    difficulty := 2, processed_tx_ids := ∅, mining_times := [] }

/-- Model of `Blockchain.get_latest_block`: `self.chain[-1]`. -/
def Blockchain.get_latest_block (bc : Blockchain) : Block :=
  bc.chain.getD (bc.chain.length - 1) default

/-- Model of `Blockchain.add_transaction`: replay checks in secure mode (processed-id
set first, then the pending pool), then append to the pool and, in secure
mode, record the id immediately. -/
def Blockchain.add_transaction (bc : Blockchain) (t : Transaction)
    (secure_mode : Bool) : (Bool × String) × Blockchain :=
  if secure_mode ∧ t.id ∈ bc.processed_tx_ids then
    ((false, "REPLAY ATTACK BLOCKED: Transaction ID already exists!"), bc)
  else if secure_mode ∧ bc.pending_transactions.any (fun tx => tx.id == t.id) then
    ((false, "REPLAY ATTACK BLOCKED: Transaction already pending!"), bc)
  else if secure_mode then
    ((true, "Transaction added successfully!"),
      { bc with pending_transactions := bc.pending_transactions ++ [t],
                processed_tx_ids := insert t.id bc.processed_tx_ids })
  else
    ((true, "Transaction added successfully!"),
      { bc with pending_transactions := bc.pending_transactions ++ [t] })

/-- Model of `Blockchain.adjust_difficulty`: single-sample reactive controller
against the fixed target time 2.0. -/
def Blockchain.adjust_difficulty (bc : Blockchain) : Blockchain :=
  if bc.chain.length < 2 then bc
  else if bc.get_latest_block.mining_time < (2 : ℚ) then
    { bc with difficulty := bc.difficulty + 1 }
  else if (2 : ℚ) < bc.get_latest_block.mining_time ∧ 1 < bc.difficulty then
    { bc with difficulty := bc.difficulty - 1 }
  else bc

/-- Model of `Blockchain.mine_pending_transactions`: build a block from the full
pool at the current difficulty, mine it, append it, register every mined
id, clear the pool, record the duration, optionally adjust difficulty.
`none` means the mining loop ran out of fuel (the source would still be
looping). -/
def Blockchain.mine_pending_transactions (bc : Blockchain) (H : String → String)
    (fuel : Nat) (now elapsed : ℚ) (miner_address : String) (auto_adjust : Bool) :
    Option ((Bool × String) × Blockchain) :=
  if bc.pending_transactions.isEmpty then
    some ((false, "No transactions to mine."), bc)
  else
    match (Block.new H bc.chain.length bc.get_latest_block.hash
        bc.pending_transactions bc.difficulty now).mine_block H fuel elapsed with
    | none => none
    | some mined =>
      some ((true, "Block #" ++ toString mined.index ++ " mined successfully in " ++
        toString mined.mining_time ++ "s!"),
        if auto_adjust then
          Blockchain.adjust_difficulty
            { bc with
              chain := bc.chain ++ [mined],
              processed_tx_ids :=
                bc.pending_transactions.foldl (fun s tx => insert tx.id s)
                  bc.processed_tx_ids,
              pending_transactions := [],
              mining_times := bc.mining_times ++ [mined.mining_time] }
        else
          { bc with
            chain := bc.chain ++ [mined],
            processed_tx_ids :=
              bc.pending_transactions.foldl (fun s tx => insert tx.id s)
                bc.processed_tx_ids,
            pending_transactions := [],
            mining_times := bc.mining_times ++ [mined.mining_time] })

/-- The failure message `f"Block {i} hash mismatch! Data tampered?"`. -/
def tamperMsg (i : Nat) : String :=
  "Block " ++ toString i ++ " hash mismatch! Data tampered?"

/-- The failure message `f"Block {i} invalid previous hash link!"`. -/
def brokenLinkMsg (i : Nat) : String :=
  "Block " ++ toString i ++ " invalid previous hash link!"

/-- The validation loop of `Blockchain.is_chain_valid`, walking the chain
from index `i` with `previous` the block at `i - 1`. -/
def checkFrom (H : String → String) (previous : Block) (rest : List Block)
    (i : Nat) : Bool × String :=
  match rest with
  | [] => (true, "Blockchain is valid.")
  | current :: rest' =>
    if current.hash ≠ current.calculate_hash H then (false, tamperMsg i)
    else if current.previous_hash ≠ previous.hash then (false, brokenLinkMsg i)
    else checkFrom H current rest' (i + 1)

/-- Model of `Blockchain.is_chain_valid`: read-only validation; the method performs
no writes, so the state component of the result is the input state. -/
def Blockchain.is_chain_valid (bc : Blockchain) (H : String → String) :
    (Bool × String) × Blockchain :=
  (match bc.chain with
   | [] => (true, "Blockchain is valid.")
   | g :: rest => checkFrom H g rest 1, bc)

/-- Python list indexing: a negative index counts from the end of the
list. -/
def pyIndex (len : Nat) (i : Int) : Int :=
  if i < 0 then i + len else i

/-- Model of `Blockchain.corrupt_block`: Python `if block_index < len(self.chain)`
admits negative indices, which `self.chain[block_index]` resolves from the
end of the list; an index below `-len` raises `IndexError`, modelled as
`none`. On success the first transaction's amount of the addressed block
is overwritten without touching the stored hash. The write is modelled on
the addressed block's value only: Python object aliasing (one
`Transaction` object shared by several blocks, reachable through insecure
resubmission of the same object across minings) is not representable in
this value-level embedding, where the source's in-place mutation would
also taint every other block holding the shared object. -/
def Blockchain.corrupt_block (bc : Blockchain) (block_index : Int) (new_data : ℚ) :
    Option ((Bool × String) × Blockchain) :=
  if block_index < (bc.chain.length : Int) then
    if 0 ≤ pyIndex bc.chain.length block_index ∧
        pyIndex bc.chain.length block_index < (bc.chain.length : Int) then
      match (bc.chain.getD (pyIndex bc.chain.length block_index).toNat default).transactions with
      | [] => some ((false, "Block has no transactions to tamper."), bc)
      | t :: ts =>
        some ((true, "Block tampered."),
          { bc with
            chain :=
              bc.chain.set (pyIndex bc.chain.length block_index).toNat
                ({ bc.chain.getD (pyIndex bc.chain.length block_index).toNat default with
                   transactions := { t with amount := new_data } :: ts }) })
    else none
  else some ((false, "Invalid block index."), bc)

/-- States reachable from a fresh `Blockchain` by transaction submissions
and (terminating) mining calls, mirroring how the presentation layer
drives the core. -/
inductive Reachable (H : String → String) : Blockchain → Prop
  | init (now : ℚ) : Reachable H (Blockchain.init H now)
  | submit (bc : Blockchain) (t : Transaction) (secure_mode : Bool) :
      Reachable H bc → Reachable H (bc.add_transaction t secure_mode).2
  | mine (bc bc2 : Blockchain) (r : Bool × String) (fuel : Nat) (now elapsed : ℚ)
      (addr : String) (auto : Bool) :
      Reachable H bc →
      bc.mine_pending_transactions H fuel now elapsed addr auto = some (r, bc2) →
      Reachable H bc2

/-- Hash linkage of a chain: every non-genesis block's `previous_hash`
equals the stored hash of its predecessor. -/
def chainLinked (chain : List Block) : Prop :=
  ∀ i : Nat, 1 ≤ i → i < chain.length →
    (chain.getD i default).previous_hash = (chain.getD (i - 1) default).hash

/-! Concrete instantiation used by witnesses and counterexamples: a digest
function under which every output starts with two zero characters, so the
proof-of-work search at the starting difficulty 2 succeeds at nonce 0. -/

/-- A concrete digest function for witnesses: prefix the serialized input
with `"00"` (injective, and every output meets a difficulty-2 target). -/
def Hc : String → String := fun s => "00" ++ s

/-- A concrete transaction from Alice to Bob with a derived id. -/
def tx1 : Transaction := Transaction.make Hc "Alice" "Bob" 10 (some 1) 1 none

/-- A fresh blockchain at time 0 under the concrete digest. -/
def bc0 : Blockchain := Blockchain.init Hc 0

/-- The fresh blockchain after securely submitting `tx1`. -/
def bcA : Blockchain := (bc0.add_transaction tx1 true).2

/-- The result of mining `bcA`'s pool (fuel 0 suffices under `Hc`). -/
def mineOut : Option ((Bool × String) × Blockchain) :=
  bcA.mine_pending_transactions Hc 0 1 1 "Miner1" false

/-- The two-block chain state produced by `mineOut`. -/
def bcM : Blockchain := (mineOut.getD ((false, ""), bcA)).2

/-- The success message produced by `mineOut`. -/
def mineMsg : String := "Block #1 mined successfully in 1s!"

/-- The tuple of stored fields of a transaction (the whole record). -/
def txFields (t : Transaction) : String × String × ℚ × ℚ × String :=
  (t.sender, t.receiver, t.amount, t.timestamp, t.id)

/-- Number of pool entries carrying a given transaction id. -/
def countTxId (l : List Transaction) (i : String) : Nat :=
  l.countP fun tx => tx.id == i

/-- A transaction with the same transfer content as `tx1` but a different
stored id. -/
def tx1b : Transaction := { tx1 with id := "other" }

/-- The mined block of `bcM`. -/
def blk1 : Block := bcM.get_latest_block

/-- Variant of `blk1` with its stored hash and mining time replaced (fields that are
not inputs of the block digest). -/
def blk1b : Block := { blk1 with mining_time := 99, hash := "corrupted" }

/-- The state produced by `corrupt_block bcM (-1)`: Python negative
indexing resolves `-1` to the last block. -/
def bcC : Blockchain := ((bcM.corrupt_block (-1) 999999).getD ((false, ""), bcM)).2

/-- The state produced by corrupting `bcM`'s block 1 with a fresh amount. -/
def bcT : Blockchain := ((bcM.corrupt_block 1 999999).getD ((false, ""), bcM)).2

/-- Validation fails with the tampered-block message for some index
between 1 and `k`. -/
def failsTamperedWithin (H : String → String) (bc : Blockchain) (k : Nat) : Bool :=
  (List.range (k + 1)).any fun i =>
    decide (1 ≤ i ∧ (bc.is_chain_valid H).1 = (false, tamperMsg i))

/-! Helper lemmas about the mining loop and difficulty adjustment. -/

lemma adjust_difficulty_frame (bc : Blockchain) :
    bc.adjust_difficulty.chain = bc.chain ∧
    bc.adjust_difficulty.pending_transactions = bc.pending_transactions ∧
    bc.adjust_difficulty.processed_tx_ids = bc.processed_tx_ids := by
  unfold Blockchain.adjust_difficulty
  split
  · exact ⟨rfl, rfl, rfl⟩
  · split
    · exact ⟨rfl, rfl, rfl⟩
    · split
      · exact ⟨rfl, rfl, rfl⟩
      · exact ⟨rfl, rfl, rfl⟩

lemma mineLoop_fields (H : String → String) (fuel : Nat) :
    ∀ b b2 : Block, mineLoop H fuel b = some b2 →
      b2.index = b.index ∧ b2.timestamp = b.timestamp ∧
      b2.transactions = b.transactions ∧ b2.previous_hash = b.previous_hash ∧
      b2.difficulty = b.difficulty := by
  induction fuel with
  | zero =>
    intro b b2 h
    unfold mineLoop at h
    split at h
    · cases h; exact ⟨rfl, rfl, rfl, rfl, rfl⟩
    · cases h
  | succ n ih =>
    intro b b2 h
    unfold mineLoop at h
    split at h
    · cases h; exact ⟨rfl, rfl, rfl, rfl, rfl⟩
    · have hrec := ih _ _ h
      exact hrec

lemma mineLoop_hash (H : String → String) (fuel : Nat) :
    ∀ b b2 : Block, b.hash = b.calculate_hash H → mineLoop H fuel b = some b2 →
      b2.hash = b2.calculate_hash H ∧
      b2.hash.take b2.difficulty = hashTarget b2.difficulty := by
  induction fuel with
  | zero =>
    intro b b2 hb h
    unfold mineLoop at h
    split at h
    · cases h; exact ⟨hb, by assumption⟩
    · cases h
  | succ n ih =>
    intro b b2 hb h
    unfold mineLoop at h
    split at h
    · cases h; exact ⟨hb, by assumption⟩
    · exact ih _ _ rfl h

lemma mine_block_spec (H : String → String) (fuel : Nat) (elapsed : ℚ)
    (b b2 : Block) (hb : b.hash = b.calculate_hash H)
    (h : b.mine_block H fuel elapsed = some b2) :
    b2.hash = b2.calculate_hash H ∧
    b2.hash.take b2.difficulty = hashTarget b2.difficulty ∧
    b2.index = b.index ∧ b2.timestamp = b.timestamp ∧
    b2.transactions = b.transactions ∧ b2.previous_hash = b.previous_hash ∧
    b2.difficulty = b.difficulty := by
  unfold Block.mine_block at h
  rcases Option.map_eq_some'.mp h with ⟨m, hm, hb2⟩
  obtain ⟨h1, h2⟩ := mineLoop_hash H fuel b m hb hm
  obtain ⟨f1, f2, f3, f4, f5⟩ := mineLoop_fields H fuel b m hm
  subst hb2
  exact ⟨h1, h2, f1, f2, f3, f4, f5⟩

lemma mem_foldl_insert_init (l : List Transaction) (s : Finset String) (x : String)
    (hx : x ∈ s) : x ∈ l.foldl (fun acc tx => insert tx.id acc) s := by
  induction l generalizing s with
  | nil => simpa using hx
  | cons hd tl ih =>
    simp only [List.foldl_cons]
    exact ih _ (Finset.mem_insert_of_mem hx)

lemma mem_foldl_insert (l : List Transaction) (s : Finset String) (t : Transaction)
    (ht : t ∈ l) : t.id ∈ l.foldl (fun acc tx => insert tx.id acc) s := by
  induction l generalizing s with
  | nil => cases ht
  | cons hd tl ih =>
    simp only [List.foldl_cons]
    rcases List.mem_cons.mp ht with h | h
    · subst h; exact mem_foldl_insert_init _ _ _ (Finset.mem_insert_self _ _)
    · exact ih _ h

/-- Unpacking of a successful `mine_pending_transactions` call: the new
state is the (possibly difficulty-adjusted) state whose chain is the old
chain with the mined block appended, whose pool is empty and whose
processed-id set absorbs every pooled id. -/
lemma mine_pending_success (H : String → String) (bc : Blockchain) (fuel : Nat)
    (now elapsed : ℚ) (addr : String) (auto : Bool) (msg : String) (bc2 : Blockchain)
    (h : bc.mine_pending_transactions H fuel now elapsed addr auto =
      some ((true, msg), bc2)) :
    ∃ mined : Block,
      (Block.new H bc.chain.length bc.get_latest_block.hash bc.pending_transactions
        bc.difficulty now).mine_block H fuel elapsed = some mined ∧
      bc2.chain = bc.chain ++ [mined] ∧
      bc2.pending_transactions = [] ∧
      bc2.processed_tx_ids =
        bc.pending_transactions.foldl (fun s tx => insert tx.id s)
          bc.processed_tx_ids := by
  unfold Blockchain.mine_pending_transactions at h
  split at h
  · simp at h
  · split at h
    · exact Option.noConfusion h
    · rename_i mined hm
      rw [Option.some.injEq, Prod.mk.injEq] at h
      obtain ⟨-, hbc2⟩ := h
      subst hbc2
      refine ⟨mined, hm, ?_⟩
      split
      · obtain ⟨c1, c2, c3⟩ := adjust_difficulty_frame _
        exact ⟨c1, c2, c3⟩
      · exact ⟨rfl, rfl, rfl⟩

set_option maxRecDepth 40000

/-- Claim C1: for every chain state with a non-empty pending pool, if
`mine_pending_transactions` succeeds then the block it appended (the new
latest block) has a hash whose first `difficulty` (the block's own field)
hex characters are all '0', and recomputing the digest over that block's
stored fields (index, timestamp, transactions, previous_hash, difficulty,
nonce) yields exactly its stored hash. -/
theorem claim1_mine_correct (H : String → String) (bc : Blockchain) (fuel : Nat)
    (now elapsed : ℚ) (addr : String) (auto : Bool) (msg : String) (bc2 : Blockchain)
    (h : bc.mine_pending_transactions H fuel now elapsed addr auto =
      some ((true, msg), bc2)) :
    bc2.chain = bc.chain ++ [bc2.get_latest_block] ∧
    bc2.get_latest_block.hash.take bc2.get_latest_block.difficulty =
      hashTarget bc2.get_latest_block.difficulty ∧
    Block.calculate_hash H bc2.get_latest_block = bc2.get_latest_block.hash := by
  obtain ⟨mined, hm, hchain, -, -⟩ :=
    mine_pending_success H bc fuel now elapsed addr auto msg bc2 h
  obtain ⟨h1, h2, -, -, -, -, -⟩ := mine_block_spec H fuel elapsed _ mined rfl hm
  have hlb : bc2.get_latest_block = mined := by
    unfold Blockchain.get_latest_block
    rw [hchain]
    simp [List.getD_eq_getElem?_getD, List.getElem?_concat_length]
  rw [hlb, hchain]
  exact ⟨rfl, h2, h1.symm⟩

/-- Witness for claim C1 at the concrete two-block chain `bcM`. -/
theorem claim1_mine_correct_w :
    bcM.chain = bcA.chain ++ [bcM.get_latest_block] ∧
    bcM.get_latest_block.hash.take bcM.get_latest_block.difficulty =
      hashTarget bcM.get_latest_block.difficulty ∧
    Block.calculate_hash Hc bcM.get_latest_block = bcM.get_latest_block.hash :=
  claim1_mine_correct Hc bcA 0 1 1 "Miner1" false mineMsg bcM (by decide)

/-- Claim C7: after a successful `mine_pending_transactions` the pending
pool is empty and every transaction that was in the pool has its id in the
processed-id set, regardless of the mode it was submitted under. -/
theorem claim7_pool_cleared (H : String → String) (bc : Blockchain) (fuel : Nat)
    (now elapsed : ℚ) (addr : String) (auto : Bool) (msg : String) (bc2 : Blockchain)
    (h : bc.mine_pending_transactions H fuel now elapsed addr auto =
      some ((true, msg), bc2)) :
    bc2.pending_transactions = [] ∧
    ∀ t ∈ bc.pending_transactions, t.id ∈ bc2.processed_tx_ids := by
  obtain ⟨mined, -, -, hpend, hproc⟩ :=
    mine_pending_success H bc fuel now elapsed addr auto msg bc2 h
  refine ⟨hpend, fun t ht => ?_⟩
  rw [hproc]
  exact mem_foldl_insert _ _ _ ht

/-- Witness for claim C7: mining `bcA` clears the pool and registers
`tx1`'s id. -/
theorem claim7_pool_cleared_w :
    bcM.pending_transactions = [] ∧ tx1.id ∈ bcM.processed_tx_ids :=
  ⟨(claim7_pool_cleared Hc bcA 0 1 1 "Miner1" false mineMsg bcM (by decide)).1,
   (claim7_pool_cleared Hc bcA 0 1 1 "Miner1" false mineMsg bcM (by decide)).2
     tx1 (by decide)⟩

lemma add_transaction_chain (bc : Blockchain) (t : Transaction) (m : Bool) :
    (bc.add_transaction t m).2.chain = bc.chain := by
  unfold Blockchain.add_transaction
  split
  · rfl
  · split
    · rfl
    · split
      · rfl
      · rfl

/-- A mining call that returns either leaves the state unchanged (empty
pool) or appends exactly the mined block to the chain. -/
lemma mine_pending_state (H : String → String) (bc : Blockchain) (fuel : Nat)
    (now elapsed : ℚ) (addr : String) (auto : Bool) (r : Bool × String)
    (bc2 : Blockchain)
    (h : bc.mine_pending_transactions H fuel now elapsed addr auto = some (r, bc2)) :
    bc2 = bc ∨
    ∃ mined : Block,
      (Block.new H bc.chain.length bc.get_latest_block.hash bc.pending_transactions
        bc.difficulty now).mine_block H fuel elapsed = some mined ∧
      bc2.chain = bc.chain ++ [mined] := by
  unfold Blockchain.mine_pending_transactions at h
  split at h
  · rw [Option.some.injEq, Prod.mk.injEq] at h
    exact Or.inl h.2.symm
  · split at h
    · exact Option.noConfusion h
    · rename_i mined hm
      rw [Option.some.injEq, Prod.mk.injEq] at h
      obtain ⟨-, hbc2⟩ := h
      subst hbc2
      refine Or.inr ⟨mined, hm, ?_⟩
      split
      · exact (adjust_difficulty_frame _).1
      · rfl

/-- Every reachable state has a non-empty chain whose hash linkage is
intact. -/
lemma reachable_chain_invariant (H : String → String) (bc : Blockchain)
    (h : Reachable H bc) : bc.chain ≠ [] ∧ chainLinked bc.chain := by
  induction h with
  | init now =>
    refine ⟨by simp [Blockchain.init], ?_⟩
    intro i h1 h2
    simp [Blockchain.init] at h2
    omega
  | submit bc t m hr ih =>
    rw [add_transaction_chain]
    exact ih
  | mine bc bc2 r fuel now elapsed addr auto hr heq ih =>
    rcases mine_pending_state H bc fuel now elapsed addr auto r bc2 heq with
      hbc | ⟨mined, hm, hchain⟩
    · rw [hbc]; exact ih
    · obtain ⟨hne, hlink⟩ := ih
      obtain ⟨-, -, -, -, -, hprev, -⟩ := mine_block_spec H fuel elapsed _ mined rfl hm
      have hlen : 1 ≤ bc.chain.length := by
        cases hc : bc.chain with
        | nil => exact absurd hc hne
        | cons a l => simp [hc]
      refine ⟨by simp [hchain], ?_⟩
      intro i h1 h2
      rw [hchain] at h2 ⊢
      rw [List.length_append, List.length_singleton] at h2
      by_cases hi : i < bc.chain.length
      · have hi' : i - 1 < bc.chain.length := by omega
        rw [List.getD_eq_getElem?_getD, List.getElem?_append_left hi,
          List.getD_eq_getElem?_getD (l := bc.chain ++ [mined]),
          List.getElem?_append_left hi',
          ← List.getD_eq_getElem?_getD, ← List.getD_eq_getElem?_getD]
        exact hlink i h1 hi
      · have hieq : i = bc.chain.length := by omega
        subst hieq
        rw [List.getD_eq_getElem?_getD, List.getElem?_concat_length]
        have hi' : bc.chain.length - 1 < bc.chain.length := by omega
        rw [List.getD_eq_getElem?_getD (l := bc.chain ++ [mined]),
          List.getElem?_append_left hi', ← List.getD_eq_getElem?_getD]
        exact hprev

/-- Claim C2: in every state reachable from a fresh blockchain by
submissions and minings, each block's `previous_hash` equals the stored
hash of its predecessor. -/
theorem claim2_chain_linkage (H : String → String) (bc : Blockchain)
    (h : Reachable H bc) : chainLinked bc.chain :=
  (reachable_chain_invariant H bc h).2

/-- Witness for claim C2 on the concrete two-block reachable state
`bcM`. -/
theorem claim2_chain_linkage_w :
    (bcM.chain.getD 1 default).previous_hash = (bcM.chain.getD 0 default).hash := by
  have hr : Reachable Hc bcM :=
    Reachable.mine bcA bcM (true, mineMsg) 0 1 1 "Miner1" false
      (Reachable.submit bc0 tx1 true (Reachable.init 0)) (by decide)
  exact claim2_chain_linkage Hc bcM hr 1 (by decide) (by decide)

/-- Claim C3: for a transaction whose id is neither processed nor pooled,
submitting it twice in secure mode succeeds then fails with the replay
rejection, while in insecure mode both submissions succeed and the pool
ends up with exactly two entries carrying its id. -/
theorem claim3_replay (bc : Blockchain) (t : Transaction)
    (hp : t.id ∉ bc.processed_tx_ids)
    (hq : ∀ tx ∈ bc.pending_transactions, tx.id ≠ t.id) :
    (bc.add_transaction t true).1.1 = true ∧
    ((bc.add_transaction t true).2.add_transaction t true).1 =
      (false, "REPLAY ATTACK BLOCKED: Transaction ID already exists!") ∧
    (bc.add_transaction t false).1.1 = true ∧
    ((bc.add_transaction t false).2.add_transaction t false).1.1 = true ∧
    countTxId ((bc.add_transaction t false).2.add_transaction t false).2.pending_transactions
      t.id = 2 := by
  have hn1 : ¬((true : Bool) ∧ t.id ∈ bc.processed_tx_ids) := fun hc => hp hc.2
  have hn2 : ¬((true : Bool) ∧
      (bc.pending_transactions.any fun tx => tx.id == t.id) = true) := by
    rintro ⟨-, hc⟩
    rcases List.any_eq_true.mp hc with ⟨tx, htx, he⟩
    exact hq tx htx (by simpa using he)
  have hf : ∀ p : Prop, ¬((false : Bool) ∧ p) := fun p hc => by
    have := hc.1
    simp at this
  have e1 : bc.add_transaction t true =
      ((true, "Transaction added successfully!"),
        { bc with pending_transactions := bc.pending_transactions ++ [t],
                  processed_tx_ids := insert t.id bc.processed_tx_ids }) := by
    unfold Blockchain.add_transaction
    rw [if_neg hn1, if_neg hn2, if_pos rfl]
  have e2 : ((bc.add_transaction t true).2.add_transaction t true).1 =
      (false, "REPLAY ATTACK BLOCKED: Transaction ID already exists!") := by
    rw [e1]
    unfold Blockchain.add_transaction
    rw [if_pos ⟨rfl, Finset.mem_insert_self _ _⟩]
  have e3 : bc.add_transaction t false =
      ((true, "Transaction added successfully!"),
        { bc with pending_transactions := bc.pending_transactions ++ [t] }) := by
    unfold Blockchain.add_transaction
    rw [if_neg (hf _), if_neg (hf _), if_neg (by simp)]
  have e4 : ((bc.add_transaction t false).2.add_transaction t false) =
      ((true, "Transaction added successfully!"),
        { bc with pending_transactions := (bc.pending_transactions ++ [t]) ++ [t] }) := by
    rw [e3]
    unfold Blockchain.add_transaction
    rw [if_neg (hf _), if_neg (hf _), if_neg (by simp)]
  have hcount : bc.pending_transactions.countP (fun tx => tx.id == t.id) = 0 := by
    rw [List.countP_eq_zero]
    intro tx htx
    simpa using hq tx htx
  refine ⟨by rw [e1], e2, by rw [e3], by rw [e4], ?_⟩
  rw [e4]
  unfold countTxId
  simp [List.countP_append, hcount]

/-- Witness for claim C3 with `tx1` against the fresh chain `bc0`. -/
theorem claim3_replay_w :
    (bc0.add_transaction tx1 true).1.1 = true ∧
    ((bc0.add_transaction tx1 true).2.add_transaction tx1 true).1 =
      (false, "REPLAY ATTACK BLOCKED: Transaction ID already exists!") ∧
    (bc0.add_transaction tx1 false).1.1 = true ∧
    ((bc0.add_transaction tx1 false).2.add_transaction tx1 false).1.1 = true ∧
    countTxId ((bc0.add_transaction tx1 false).2.add_transaction tx1 false).2.pending_transactions
      tx1.id = 2 :=
  claim3_replay bc0 tx1 (by decide) (by decide)

/-- Claim C5: `adjust_difficulty` is the identity on chains shorter than 2;
otherwise it raises the difficulty by exactly 1 when the latest block's
mining time is strictly below the 2-second target, lowers it by exactly 1
when the time is strictly above the target with difficulty above 1, and
changes nothing in every other case. -/
theorem claim5_adjust (bc : Blockchain) :
    (bc.chain.length < 2 → bc.adjust_difficulty = bc) ∧
    (2 ≤ bc.chain.length →
      (bc.get_latest_block.mining_time < 2 →
        bc.adjust_difficulty = { bc with difficulty := bc.difficulty + 1 }) ∧
      ((2 : ℚ) < bc.get_latest_block.mining_time → 1 < bc.difficulty →
        bc.adjust_difficulty = { bc with difficulty := bc.difficulty - 1 }) ∧
      (¬ bc.get_latest_block.mining_time < 2 →
        ¬ ((2 : ℚ) < bc.get_latest_block.mining_time ∧ 1 < bc.difficulty) →
        bc.adjust_difficulty = bc)) := by
  unfold Blockchain.adjust_difficulty
  by_cases h1 : bc.chain.length < 2
  · rw [if_pos h1]
    exact ⟨fun _ => rfl, fun h2 => absurd h1 (by omega)⟩
  · rw [if_neg h1]
    refine ⟨fun hc => absurd hc h1, fun _ => ⟨?_, ?_, ?_⟩⟩
    · intro hlt
      rw [if_pos hlt]
    · intro hgt hd
      rw [if_neg (not_lt.mpr (le_of_lt hgt)), if_pos ⟨hgt, hd⟩]
    · intro hnlt hnboth
      rw [if_neg hnlt, if_neg hnboth]

/-- Witness for claim C5: `bcM`'s latest mining time 1 is below target, so
adjusting raises the difficulty by one. -/
theorem claim5_adjust_w :
    bcM.adjust_difficulty = { bcM with difficulty := bcM.difficulty + 1 } :=
  ((claim5_adjust bcM).2 (by decide)).1 (by decide)

/-- Claim C8: `is_chain_valid` mutates nothing: the state component of its
result is the input state, every field included. -/
theorem claim8_valid_frame (H : String → String) (bc : Blockchain) :
    (bc.is_chain_valid H).2 = bc := rfl

lemma txDictJson_congr (a b : Transaction) (h : txFields a = txFields b) :
    txDictJson a = txDictJson b := by
  simp only [txFields, Prod.mk.injEq] at h
  obtain ⟨h1, h2, h3, h4, h5⟩ := h
  unfold txDictJson
  rw [h1, h2, h3, h4, h5]

lemma map_txDictJson_congr : ∀ l1 l2 : List Transaction,
    l1.map txFields = l2.map txFields → l1.map txDictJson = l2.map txDictJson := by
  intro l1
  induction l1 with
  | nil =>
    intro l2 h
    cases l2 with
    | nil => rfl
    | cons b t2 => simp at h
  | cons a t1 ih =>
    intro l2 h
    cases l2 with
    | nil => simp at h
    | cons b t2 =>
      simp only [List.map_cons, List.cons.injEq] at h ⊢
      exact ⟨txDictJson_congr a b h.1, ih t2 h.2⟩

/-- Claim C9: the transaction and block digests are deterministic pure
functions of the stored fields: equal sender/receiver/amount/timestamp
give equal transaction digests (the stored id is not an input), and equal
index/timestamp/transaction-fields/previous_hash/difficulty/nonce give
equal block digests (the stored hash and mining time are not inputs). -/
theorem claim9_digest_det (H : String → String) (t1 t2 : Transaction) (b1 b2 : Block)
    (hts : t1.sender = t2.sender) (htr : t1.receiver = t2.receiver)
    (hta : t1.amount = t2.amount) (htt : t1.timestamp = t2.timestamp)
    (hbi : b1.index = b2.index) (hbt : b1.timestamp = b2.timestamp)
    (hbx : b1.transactions.map txFields = b2.transactions.map txFields)
    (hbp : b1.previous_hash = b2.previous_hash)
    (hbd : b1.difficulty = b2.difficulty) (hbn : b1.nonce = b2.nonce) :
    t1.calculate_hash H = t2.calculate_hash H ∧
    Block.calculate_hash H b1 = Block.calculate_hash H b2 := by
  constructor
  · unfold Transaction.calculate_hash txHashString
    rw [hts, htr, hta, htt]
  · unfold Block.calculate_hash blockString txListJson
    rw [hbi, hbt, hbp, hbd, hbn, map_txDictJson_congr _ _ hbx]

/-- Witness for claim C9: `tx1` and `tx1b` differ only in the stored id
and share a digest; `blk1` and `blk1b` differ only in the stored hash and
mining time and share a digest. -/
theorem claim9_digest_det_w :
    tx1.calculate_hash Hc = tx1b.calculate_hash Hc ∧
    Block.calculate_hash Hc blk1 = Block.calculate_hash Hc blk1b :=
  claim9_digest_det Hc tx1 tx1b blk1 blk1b rfl rfl rfl rfl rfl rfl rfl rfl rfl rfl

/-- Counterexample to claim C10 as stated: supplying the explicit (falsy)
tx_id `""` does not make the id equal to that argument — Python's
`tx_id if tx_id else self.calculate_hash()` falls back to the digest. -/
theorem claim10_cex :
    (Transaction.make Hc "Alice" "Bob" 10 (some 1) 1 (some "")).id =
      "00AliceBob101" ∧ "00AliceBob101" ≠ "" :=
  ⟨by decide, by decide⟩

/-- Claim C10 (amended): when a non-empty explicit tx_id is supplied, the
constructed transaction's id equals that argument (so a transaction whose
id differs from its content digest is constructible at the public
constructor). -/
theorem claim10_custom_id (H : String → String) (sender receiver : String)
    (amount : ℚ) (timestamp : Option ℚ) (now : ℚ) (s : String) (hs : s ≠ "") :
    (Transaction.make H sender receiver amount timestamp now (some s)).id = s := by
  unfold Transaction.make
  simp [hs]

/-- Witness for amended claim C10: the id `"custom"` (distinct from the
content digest `"00AliceBob101"`) is stored verbatim. -/
theorem claim10_custom_id_w :
    (Transaction.make Hc "Alice" "Bob" 10 (some 1) 1 (some "custom")).id = "custom" :=
  claim10_custom_id Hc "Alice" "Bob" 10 (some 1) 1 "custom" (by decide)

/-- Counterexample to claim C6 as stated: `-1` lies outside
`[0, chain length)`, yet `corrupt_block bcM (-1)` succeeds (Python
negative indexing reaches the last block) and changes the state instead
of failing with the invalid-index result. -/
theorem claim6_cex :
    ((-1 : Int) < 0 ∧
      bcM.corrupt_block (-1) 999999 = some ((true, "Block tampered."), bcC)) ∧
    bcC ≠ bcM :=
  ⟨⟨by decide, by decide⟩, by decide⟩

/-- Claim C6 (amended): for every index at or beyond the chain length,
`corrupt_block` fails with the invalid-index message and leaves the whole
state unchanged; indices in `[-len, -1]` are resolved from the end of the
chain by Python indexing and are not rejected. -/
theorem claim6_invalid_index (bc : Blockchain) (i : Int) (v : ℚ)
    (h : (bc.chain.length : Int) ≤ i) :
    bc.corrupt_block i v = some ((false, "Invalid block index."), bc) := by
  unfold Blockchain.corrupt_block
  rw [if_neg (not_lt.mpr h)]

/-- Witness for amended claim C6: index 5 on the one-block chain `bc0`. -/
theorem claim6_invalid_index_w :
    bc0.corrupt_block 5 1 = some ((false, "Invalid block index."), bc0) :=
  claim6_invalid_index bc0 5 1 (by decide)

lemma is_chain_valid_fst (H : String → String) (bc : Blockchain) :
    (bc.is_chain_valid H).1 =
      match bc.chain with
      | [] => (true, "Blockchain is valid.")
      | g :: rest => checkFrom H g rest 1 := rfl

/-- Replacing the block at position `j` of a chain segment that validates
with a block whose recomputed digest differs from its stored hash makes
the validation loop fail at exactly that position. -/
lemma checkFrom_set (H : String → String) :
    ∀ (l : List Block) (prev : Block) (i j : Nat) (b2 : Block),
      (checkFrom H prev l i).1 = true →
      j < l.length →
      Block.calculate_hash H b2 ≠ b2.hash →
      checkFrom H prev (l.set j b2) i = (false, tamperMsg (i + j)) := by
  intro l
  induction l with
  | nil =>
    intro prev i j b2 hv hj hne
    simp at hj
  | cons c rest ih =>
    intro prev i j b2 hv hj hne
    unfold checkFrom at hv
    by_cases hc1 : c.hash ≠ c.calculate_hash H
    · rw [if_pos hc1] at hv
      simp at hv
    · rw [if_neg hc1] at hv
      by_cases hc2 : c.previous_hash ≠ prev.hash
      · rw [if_pos hc2] at hv
        simp at hv
      · rw [if_neg hc2] at hv
        cases j with
        | zero =>
          show checkFrom H prev (b2 :: rest) i = (false, tamperMsg (i + 0))
          unfold checkFrom
          rw [if_pos (Ne.symm hne)]
          rfl
        | succ j' =>
          show checkFrom H prev (c :: rest.set j' b2) i = _
          unfold checkFrom
          rw [if_neg hc1, if_neg hc2]
          have hj' : j' < rest.length := by
            simp only [List.length_cons] at hj
            omega
          rw [ih c (i + 1) j' b2 hv hj' hne]
          have he : i + 1 + j' = i + (j' + 1) := by omega
          rw [he]

/-- Claim C4 (amended): if the chain validates, `corrupt_block` succeeds
on a non-genesis index `k`, and the corruption actually changes the
recomputed digest of the block at `k` (guaranteed in practice by a
collision-free digest whenever the new amount differs from the old), then
`is_chain_valid` fails with the tampered-block message for some index `i`
with `1 ≤ i ≤ k`. In this value-level embedding only block `k` is
touched, so detection fires at `i = k`; in the source, the corrupted
`Transaction` object may be aliased into earlier blocks and move the
detection below `k`, which is why no bound stronger than `i ≤ k` is
claimed. -/
theorem claim4_tamper_detected (H : String → String) (bc bc2 : Blockchain)
    (k : Nat) (v : ℚ) (m : String)
    (hv : (bc.is_chain_valid H).1.1 = true)
    (hk : 1 ≤ k)
    (hc : bc.corrupt_block (k : Int) v = some ((true, m), bc2))
    (hh : Block.calculate_hash H (bc2.chain.getD k default) ≠
      (bc2.chain.getD k default).hash) :
    failsTamperedWithin H bc2 k = true := by
  suffices hres : (bc2.is_chain_valid H).1 = (false, tamperMsg k) by
    unfold failsTamperedWithin
    refine List.any_eq_true.mpr ⟨k, List.mem_range.mpr (by omega), ?_⟩
    rw [decide_eq_true_eq]
    exact ⟨hk, hres⟩
  unfold Blockchain.corrupt_block at hc
  by_cases h1 : (k : Int) < (bc.chain.length : Int)
  case neg =>
    rw [if_neg h1] at hc
    simp at hc
  case pos =>
  rw [if_pos h1] at hc
  have hpy : pyIndex bc.chain.length (k : Int) = (k : Int) := by
    unfold pyIndex
    rw [if_neg (not_lt.mpr (Int.natCast_nonneg k))]
  rw [hpy] at hc
  rw [if_pos ⟨Int.natCast_nonneg k, h1⟩] at hc
  rw [Int.toNat_natCast] at hc
  split at hc
  · simp at hc
  · rename_i t ts hts
    rw [Option.some.injEq, Prod.mk.injEq] at hc
    obtain ⟨-, hbc2⟩ := hc
    subst hbc2
    have klen : k < bc.chain.length := by exact_mod_cast h1
    set b2' : Block :=
      { bc.chain.getD k default with
        transactions := { t with amount := v } :: ts } with hb2def
    have hne : Block.calculate_hash H b2' ≠ b2'.hash := by
      have hgd : (({ bc with chain := bc.chain.set k b2' } : Blockchain)).chain.getD
          k default = b2' := by
        dsimp only
        rw [List.getD_eq_getElem?_getD, List.getElem?_set_self klen]
        rfl
      rw [hgd] at hh
      exact hh
    obtain ⟨g, rest, hch⟩ : ∃ g rest, bc.chain = g :: rest := by
      cases hcc : bc.chain with
      | nil => rw [hcc] at klen; simp at klen
      | cons a l => exact ⟨a, l, rfl⟩
    obtain ⟨k', rfl⟩ : ∃ k', k = k' + 1 := ⟨k - 1, by omega⟩
    have hv' : (checkFrom H g rest 1).1 = true := by
      rw [is_chain_valid_fst, hch] at hv
      exact hv
    have hk' : k' < rest.length := by
      rw [hch] at klen
      simp only [List.length_cons] at klen
      omega
    rw [is_chain_valid_fst]
    dsimp only
    rw [hch]
    show checkFrom H g (rest.set k' b2') 1 = (false, tamperMsg (k' + 1))
    rw [checkFrom_set H rest g 1 k' b2' hv' hk' hne]
    have he : 1 + k' = k' + 1 := by omega
    rw [he]

/-- Counterexample to claim C4 as stated: `corrupt_block` succeeds on the
non-genesis block 1 of the valid chain `bcM` while writing the amount the
first transaction already has, so the chain still validates afterwards
instead of failing. -/
theorem claim4_cex :
    (bcM.is_chain_valid Hc).1.1 = true ∧
    bcM.corrupt_block 1 10 = some ((true, "Block tampered."), bcM) :=
  ⟨by decide, by decide⟩

/-- Witness for amended claim C4: corrupting `bcM`'s block 1 with the
fresh amount 999999 changes the recomputed digest (the concrete digest
function is injective), and validation then reports tampering at an index
in `[1, 1]`. -/
theorem claim4_tamper_detected_w :
    failsTamperedWithin Hc bcT 1 = true :=
  claim4_tamper_detected Hc bcM bcT 1 999999 "Block tampered."
    (by decide) (by decide) (by decide) (by decide)

end EduChain
